import Mathlib

set_option linter.unusedVariables false

/-!
Verification development for the GitHub backend API of the netlify-cms
repository (source file: the `API` class, `src/unnamed/part_000`).

The TypeScript class is shallowly embedded in Lean.  Pure string helpers
become pure Lean functions.  Every asynchronous method is embedded as a
state transformer `M α := World → Outcome α × World`,  where `World`
carries the observable remote state (branches, the dedicated metadata
ref and its tree contents, pull requests, the local cache, a fault
schedule used to model transport failures, the metadata write semaphore,
and a log of the remote calls issued).  `Outcome` distinguishes a
promise that resolves, one that rejects with an error, and one that
never settles (used to model a write waiting on the single-slot
metadata semaphore).  Git object ids are modelled as natural numbers
allocated from a counter; remote git stores are modelled at the level
of the state visible through refs.
-/

/-- Git object ids (shas) are modelled as natural numbers. -/
abbrev Sha := Nat

/-- Author or committer identity attached to a git commit. -/
structure GitPerson where
  name : String
  email : String
  date : String
deriving Repr, DecidableEq

/-- Entry of a tree-creation request: path, mode, type and an optional
sha (`none` models the JSON `null` marking a deletion). -/
structure TreeEntryItem where
  path : String
  mode : String
  type : String
  sha : Option Sha
deriving Repr, DecidableEq

/-- Sparse change handed to `updateTree`: an optional blob sha (`none`
deletes the path) and a path. -/
structure TreeChange where
  sha : Option Sha
  path : String
deriving Repr, DecidableEq

/-- One file of a commit-compare response (`files` item): status is one
of "added", "removed", "renamed", "modified"; `previous_filename` is
present for renames. -/
structure CompareFile where
  status : String
  filename : String
  previous_filename : Option String
  sha : Sha
deriving Repr, DecidableEq

/-- Commit payload of a compare-response commit item: message plus the
optional author and committer identities. -/
structure CommitDetails where
  message : String
  author : Option GitPerson
  committer : Option GitPerson
deriving Repr, DecidableEq

/-- Commit item of a compare response (also used for the result of
`createCommit`, which the source casts to this shape): sha, parent
shas, and the commit details. -/
structure CompareCommit where
  sha : Sha
  parents : List Sha
  commit : CommitDetails
deriving Repr, DecidableEq

/-- Pull-request reference stored in metadata: number and head sha. -/
structure PRRef where
  number : Nat
  head : Sha
deriving Repr, DecidableEq

/-- A tracked file: blob sha plus path. -/
structure MediaFile where
  sha : Sha
  path : String
deriving Repr, DecidableEq

/-- Entry file and media files recorded in metadata (`objects`). -/
structure MetaDataObjects where
  entry : MediaFile
  files : List MediaFile
deriving Repr, DecidableEq

/-- Metadata document persisted per content key. -/
structure Metadata where
  type : String
  objects : MetaDataObjects
  branch : String
  status : String
  pr : Option PRRef
  collection : String
  commitMessage : String
  version : Option String
  user : String
  title : Option String
  description : Option String
  timeStamp : String
deriving Repr, DecidableEq

/-- Branch object as returned by the refs listing: a fully qualified
ref string. -/
structure Branch where
  ref : String
deriving Repr, DecidableEq

/-- Remote pull-request state as known by the hosting service. -/
structure PRInfo where
  number : Nat
  state : String
  mergedAt : Bool
  headSha : Sha
  headRef : String
deriving Repr, DecidableEq

/-- Error values: `apiError` models an `APIError` carrying a message and
an HTTP status; `otherError` models any non-`APIError` thrown value. -/
inductive Err where
  | apiError (message : String) (status : Nat)
  | otherError (message : String)
deriving Repr, DecidableEq

/-- Result of running an embedded asynchronous method: the promise
resolves with a value, rejects with an error, or never settles
(modelling a callback queued behind a semaphore slot that is never
released). -/
inductive Outcome (α : Type) where
  | resolved (a : α)
  | rejected (e : Err)
  | pending
deriving Repr, DecidableEq

/-- Remote calls issued by the embedded methods, recorded in the world
log in issue order. -/
inductive RemoteOp where
  | blobCreate (sha : Sha)
  | treeCreate (baseSha : Option Sha) (entries : List TreeEntryItem) (sha : Sha)
  | commitCreate (message : String) (treeSha : Sha) (parents : List Sha)
      (author committer : Option GitPerson) (sha : Sha)
  | refRead (typ name : String)
  | refCreate (typ name : String) (sha : Sha)
  | refPatch (typ name : String) (sha : Sha) (force : Bool)
  | refDelete (typ name : String)
  | refsList (pre : String)
  | branchGet (name : String)
  | contentsRead (path : String)
  | compareRead (baseSha headSha : Sha)
  | prGet (number : Nat)
  | prCreate (number : Nat) (head : String)
  | prPatch (number : Nat) (state : String)
  | prMerge (number : Nat)
  | prsList (head : String)
  | userGet
deriving Repr, DecidableEq

/-- Association-list lookup by string key. -/
def lookupKey {α : Type} : List (String × α) → String → Option α
  | [], _ => none
  | p :: rest, k => if p.1 = k then some p.2 else lookupKey rest k

/-- Association-list removal of a string key. -/
def eraseKey {α : Type} : List (String × α) → String → List (String × α)
  | [], _ => []
  | p :: rest, k => if p.1 = k then eraseKey rest k else p :: eraseKey rest k

/-- Association-list update: bind key `k` to `v`. -/
def setKey {α : Type} (l : List (String × α)) (k : String) (v : α) :
    List (String × α) :=
  (k, v) :: eraseKey l k

/-- Lookup of a pull request by number. -/
def lookupPR : List PRInfo → Nat → Option PRInfo
  | [], _ => none
  | p :: rest, n => if p.number = n then some p else lookupPR rest n

/-- Update of a pull request state by number. -/
def setPRState : List PRInfo → Nat → String → Bool → List PRInfo
  | [], _, _, _ => []
  | p :: rest, n, st, m =>
      if p.number = n then { p with state := st, mergedAt := m } :: rest
      else p :: setPRState rest n st m

/-- Lookup of a compare diff by (base sha, head sha). -/
def lookupDiff : List ((Sha × Sha) × List CompareFile) → Sha → Sha →
    Option (List CompareFile)
  | [], _, _ => none
  | p :: rest, a, b => if p.1 = (a, b) then some p.2 else lookupDiff rest a b

/-- Observable world state threaded through every embedded method. -/
structure World where
  time : Nat
  nextSha : Sha
  nextPrNumber : Nat
  userLogin : String
  userName : String
  branches : List (String × Sha)
  metaRef : Option Sha
  metaFiles : List (String × Metadata)
  cache : List (String × (Nat × Metadata))
  prs : List PRInfo
  diffs : List ((Sha × Sha) × List CompareFile)
  mergeOutcome : Option Err
  faults : List Bool
  semTaken : Bool
  log : List RemoteOp
deriving Repr, DecidableEq

/-- State-transformer monad for the embedded asynchronous methods. -/
def M (α : Type) := World → Outcome α × World

/-- Resolve with a value, leaving the world unchanged. -/
def M.pure {α : Type} (a : α) : M α := fun w => (.resolved a, w)

/-- Sequencing: models `await` including rejection propagation. -/
def M.bind {α β : Type} (x : M α) (f : α → M β) : M β := fun w =>
  match x w with
  | (.resolved a, w1) => f a w1
  | (.rejected e, w1) => (.rejected e, w1)
  | (.pending, w1) => (.pending, w1)

instance : Monad M where
  pure := M.pure
  bind := M.bind

/-- Configuration-derived fields of the `API` class instance. -/
structure API where
  token : String
  branch : String
  useOpenAuthoring : Bool
  repo : String
  originRepo : String
  squashMerges : Bool
  initialWorkflowStatus : String
deriving Repr

/-- Base URL path of the repository (`/repos/${this.repo}`). -/
def API.repoURL (api : API) : String := "/repos/" ++ api.repo

/-- Base URL path of the origin repository. -/
def API.originRepoURL (api : API) : String := "/repos/" ++ api.originRepo

/-- Merge method selected by configuration. -/
def API.mergeMethod (api : API) : String :=
  if api.squashMerges then "squash" else "merge"

/-- Value of the `CMS_BRANCH_PREFIX` constant imported from
netlify-cms-lib-util.  Modelled from the spec: the spec fixes a single
branch-name prefix, and the source pins its value by hard-coding the
literal "cms" in `migrateToVersion1` and in the refs listing of
`listUnpublishedBranches`. -/
def cmsBranchPrefixValue : String := "cms"

/-- Modelled from the spec: the library function `generateContentKey`
imported from netlify-cms-lib-util (not part of the source under
`src/`); per spec section 4.1 the standard-variant content key is
`collection/slug`. -/
def libGenerateContentKey (collectionName slug : String) : String :=
  collectionName ++ "/" ++ slug

/-- Embeds `API.generateContentKey`.  In the source the
non-open-authoring branch calls the library `generateContentKey` but
has no `return`, so the library result is discarded and control falls
through: both variants return the repo-prefixed key. -/
def API.generateContentKey (api : API) (collectionName slug : String) : String :=
  if !api.useOpenAuthoring then
    let _discarded := libGenerateContentKey collectionName slug
    api.repo ++ "/" ++ collectionName ++ "/" ++ slug
  else
    api.repo ++ "/" ++ collectionName ++ "/" ++ slug

/-- Embeds `API.slugFromContentKey`: positional suffix extraction
(JavaScript `String.prototype.substring`). -/
def API.slugFromContentKey (api : API) (contentKey collectionName : String) :
    String :=
  if !api.useOpenAuthoring then
    contentKey.drop (collectionName.length + 1)
  else
    contentKey.drop (api.repo.length + collectionName.length + 2)

/-- Embeds `API.generateBranchName`. -/
def API.generateBranchName (api : API) (contentKey : String) : String :=
  cmsBranchPrefixValue ++ "/" ++ contentKey

/-- Embeds `API.branchNameFromRef`. -/
def API.branchNameFromRef (api : API) (ref : String) : String :=
  ref.drop ("refs/heads/".length)

/-- Embeds `API.contentKeyFromRef`. -/
def API.contentKeyFromRef (api : API) (ref : String) : String :=
  ref.drop (("refs/heads/" ++ cmsBranchPrefixValue ++ "/").length)

/-- Character-level string prefix test.  Lean's `String.startsWith`
is implemented with byte-position loops that the kernel cannot reduce;
this structurally recursive equivalent models the JavaScript
`String.prototype.startsWith` used by the source. -/
def strStartsWith (s pre : String) : Bool :=
  pre.data.isPrefixOf s.data

/-- Embeds `API.assertCmsBranch`. -/
def API.assertCmsBranch (api : API) (branchName : String) : Bool :=
  strStartsWith branchName (cmsBranchPrefixValue ++ "/")

/- ------------------------------------------------------------------ -/
/- Helper lemmas about strings and association lists.                  -/
/- ------------------------------------------------------------------ -/

theorem String.eq_of_data_eq (s t : String) (h : s.1 = t.1) : s = t := by
  cases s; cases t; exact congrArg String.mk h

theorem lookupKey_setKey_self {α : Type} (l : List (String × α)) (k : String)
    (v : α) : lookupKey (setKey l k v) k = some v := by
  simp [setKey, lookupKey]

theorem lookupKey_eraseKey_self {α : Type} (l : List (String × α))
    (k : String) : lookupKey (eraseKey l k) k = none := by
  induction l with
  | nil => simp [eraseKey, lookupKey]
  | cons p rest ih =>
      by_cases h : p.1 = k <;> simp [eraseKey, lookupKey, h, ih]

theorem lookupKey_eraseKey_ne {α : Type} (l : List (String × α))
    (k k' : String) (h : k' ≠ k) :
    lookupKey (eraseKey l k) k' = lookupKey l k' := by
  induction l with
  | nil => rfl
  | cons p rest ih =>
      by_cases hp : p.1 = k
      · have hne : ¬ p.1 = k' := by rw [hp]; intro hh; exact h hh.symm
        simp only [eraseKey, lookupKey, if_pos hp, if_neg hne, ih]
      · simp only [eraseKey, lookupKey, if_neg hp, ih]

theorem lookupKey_setKey_ne {α : Type} (l : List (String × α))
    (k k' : String) (v : α) (h : k' ≠ k) :
    lookupKey (setKey l k v) k' = lookupKey l k' := by
  have hne : ¬ k = k' := fun hh => h hh.symm
  simp only [setKey, lookupKey, if_neg hne]
  exact lookupKey_eraseKey_ne l k k' h

/- ------------------------------------------------------------------ -/
/- Remote primitives.                                                  -/
/- ------------------------------------------------------------------ -/

/-- Allocate a fresh git object id. -/
def freshSha : M Sha := fun w =>
  (.resolved w.nextSha, { w with nextSha := w.nextSha + 1 })

/-- Issue one remote call: consume the next entry of the fault
schedule; on a scheduled transport fault the request rejects with an
`APIError` (as produced by `handleRequestError`) and nothing is logged;
otherwise the call is appended to the log. -/
def remoteCall (op : RemoteOp) : M Unit := fun w =>
  match w.faults with
  | [] => (.resolved (), { w with log := w.log ++ [op] })
  | b :: rest =>
      if b then
        (.rejected (.apiError "remote failure" 500), { w with faults := rest })
      else
        (.resolved (), { w with log := w.log ++ [op], faults := rest })

/-- Embeds `API.uploadBlob`: base64-encode the content and POST a blob;
the response sha is recorded on the item.  The embedding returns the
allocated sha (content is immaterial to the claims). -/
def API.uploadBlob (api : API) : M Sha := do
  let sha ← freshSha
  remoteCall (.blobCreate sha)
  pure sha

/-- Result of `updateTree` / `createTree`: the new tree sha, plus the
base commit sha that `updateTree` attaches as `parentSha`. -/
structure ChangeTree where
  sha : Sha
  parentSha : Option Sha
deriving Repr, DecidableEq

/-- Embeds `API.createTree`: POST `git/trees` with a base tree and the
sparse entry list. -/
def API.createTree (api : API) (baseSha : Option Sha)
    (tree : List TreeEntryItem) : M Sha := do
  let sha ← freshSha
  remoteCall (.treeCreate baseSha tree sha)
  pure sha

/-- Embeds lodash `trimStart(path, "/")`: drop every leading slash.
Implemented over the character list so that it reduces in the
kernel. -/
def trimStartSlash (s : String) : String :=
  String.mk (s.data.dropWhile (fun c => c = '/'))

/-- Embeds `API.updateTree`: format each change as a blob entry with
mode 100644 and create a tree on the given base. -/
def API.updateTree (api : API) (baseSha : Sha) (files : List TreeChange) :
    M ChangeTree := do
  let tree := files.map (fun file =>
    TreeEntryItem.mk (trimStartSlash file.path) "100644" "blob" file.sha)
  let newTreeSha ← api.createTree (some baseSha) tree
  pure { sha := newTreeSha, parentSha := some baseSha }

/-- Embeds `API.createCommit`: POST `git/commits`; the response echoes
sha, parents and commit details (the source casts it to a compare
commit when rebasing). -/
def API.createCommit (api : API) (message : String) (treeSha : Sha)
    (parents : List Sha) (author committer : Option GitPerson) :
    M CompareCommit := do
  let sha ← freshSha
  remoteCall (.commitCreate message treeSha parents author committer sha)
  pure { sha := sha, parents := parents,
         commit := { message := message, author := author,
                     committer := committer } }

/-- Embeds `API.commit`: create a commit whose parent list is the
singleton `parentSha` when present, otherwise empty. -/
def API.commit (api : API) (message : String) (changeTree : ChangeTree) :
    M CompareCommit :=
  let parents := match changeTree.parentSha with
    | some p => [p]
    | none => []
  api.createCommit message changeTree.sha parents none none

/-- Embeds `API.createRef`: POST `git/refs`.  A "heads" ref becomes a
branch binding; the "meta" ref is the dedicated metadata ref. -/
def API.createRef (api : API) (typ name : String) (sha : Sha) : M Sha := fun w =>
  match remoteCall (.refCreate typ name sha) w with
  | (.resolved _, w1) =>
      if typ = "heads" then
        (.resolved sha, { w1 with branches := setKey w1.branches name sha })
      else
        (.resolved sha, { w1 with metaRef := some sha })
  | (.rejected e, w1) => (.rejected e, w1)
  | (.pending, w1) => (.pending, w1)

/-- Embeds `API.patchRef`: PATCH a ref to a new sha, with an explicit
force flag.  Patching an absent "heads" ref rejects, as the remote
does. -/
def API.patchRef (api : API) (typ name : String) (sha : Sha) (force : Bool) :
    M Unit := fun w =>
  match remoteCall (.refPatch typ name sha force) w with
  | (.resolved _, w1) =>
      if typ = "heads" then
        match lookupKey w1.branches name with
        | some _ =>
            (.resolved (), { w1 with branches := setKey w1.branches name sha })
        | none => (.rejected (.apiError "Reference does not exist" 422), w1)
      else
        (.resolved (), { w1 with metaRef := some sha })
  | (.rejected e, w1) => (.rejected e, w1)
  | (.pending, w1) => (.pending, w1)

/-- Embeds `API.deleteRef`: DELETE a ref; deleting an absent "heads"
ref rejects with the message the remote uses. -/
def API.deleteRef (api : API) (typ name : String) : M Unit := fun w =>
  match remoteCall (.refDelete typ name) w with
  | (.resolved _, w1) =>
      if typ = "heads" then
        match lookupKey w1.branches name with
        | some _ =>
            (.resolved (), { w1 with branches := eraseKey w1.branches name })
        | none => (.rejected (.apiError "Reference does not exist" 404), w1)
      else
        (.resolved (), { w1 with metaRef := none })
  | (.rejected e, w1) => (.rejected e, w1)
  | (.pending, w1) => (.pending, w1)

/-- Embeds `API.getDefaultBranch`: fetch the configured default branch;
the response carries the tip commit sha. -/
def API.getDefaultBranch (api : API) : M Sha := fun w =>
  match remoteCall (.branchGet api.branch) w with
  | (.resolved _, w1) =>
      match lookupKey w1.branches api.branch with
      | some sha => (.resolved sha, w1)
      | none => (.rejected (.apiError "Not Found" 404), w1)
  | (.rejected e, w1) => (.rejected e, w1)
  | (.pending, w1) => (.pending, w1)

/-- Embeds `API.createBranch`. -/
def API.createBranch (api : API) (branchName : String) (sha : Sha) :
    M Branch := do
  let _ ← api.createRef "heads" branchName sha
  pure { ref := "refs/heads/" ++ branchName }

/-- Embeds `API.patchBranch`: a forced update of a non-CMS branch
throws synchronously, before any ref request is issued. -/
def API.patchBranch (api : API) (branchName : String) (sha : Sha)
    (force : Bool) : M Unit := fun w =>
  if force ∧ ¬ api.assertCmsBranch branchName then
    (.rejected (.otherError
      ("Only CMS branches can be force updated, cannot force update "
        ++ branchName)), w)
  else
    api.patchRef "heads" branchName sha force w

/-- Embeds `API.deleteBranch`: deletion is idempotent; the
"Reference does not exist" rejection is absorbed. -/
def API.deleteBranch (api : API) (branchName : String) : M Unit := fun w =>
  match api.deleteRef "heads" branchName w with
  | (.resolved _, w1) => (.resolved (), w1)
  | (.rejected e, w1) =>
      if e = .apiError "Reference does not exist" 404 then
        (.resolved (), w1)
      else
        (.rejected e, w1)
  | (.pending, w1) => (.pending, w1)

/-- Embeds `API.user`: fetch (and in the source memoize) the
authenticated user. -/
def API.user (api : API) : M (String × String) := fun w =>
  match remoteCall .userGet w with
  | (.resolved _, w1) => (.resolved (w1.userName, w1.userLogin), w1)
  | (.rejected e, w1) => (.rejected e, w1)
  | (.pending, w1) => (.pending, w1)

/-- Embeds `API.getHeadReference`: open authoring prefixes the head
with the fork owner login. -/
def API.getHeadReference (api : API) (head : String) : M String := do
  if api.useOpenAuthoring then
    let u ← api.user
    pure (u.2 ++ ":" ++ head)
  else
    pure head

/-- Embeds `API.getPullRequest`: fetch a pull request by number. -/
def API.getPullRequest (api : API) (prNumber : Nat) : M PRInfo := fun w =>
  match remoteCall (.prGet prNumber) w with
  | (.resolved _, w1) =>
      match lookupPR w1.prs prNumber with
      | some info => (.resolved info, w1)
      | none => (.rejected (.apiError "Not Found" 404), w1)
  | (.rejected e, w1) => (.rejected e, w1)
  | (.pending, w1) => (.pending, w1)

/-- Embeds `API.createPR`: open a pull request from the given head to
the default branch; the remote allocates the number and reports the
head sha (the current tip of the head branch). -/
def API.createPR (api : API) (title head : String) : M PRRef := do
  let headReference ← api.getHeadReference head
  fun w =>
    match remoteCall (.prCreate w.nextPrNumber headReference) w with
    | (.resolved _, w1) =>
        let number := w1.nextPrNumber
        let headSha := (lookupKey w1.branches head).getD 0
        let info : PRInfo :=
          { number := number, state := "open", mergedAt := false,
            headSha := headSha, headRef := head }
        (.resolved { number := number, head := headSha },
         { w1 with nextPrNumber := w1.nextPrNumber + 1,
                   prs := w1.prs ++ [info] })
    | (.rejected e, w1) => (.rejected e, w1)
    | (.pending, w1) => (.pending, w1)

/-- Embeds `API.openPR`: PATCH the pull request back to the open
state. -/
def API.openPR (api : API) (pullRequest : PRRef) : M Unit := fun w =>
  match remoteCall (.prPatch pullRequest.number "open") w with
  | (.resolved _, w1) =>
      (.resolved (), { w1 with prs := setPRState w1.prs pullRequest.number "open" false })
  | (.rejected e, w1) => (.rejected e, w1)
  | (.pending, w1) => (.pending, w1)

/-- Embeds `API.closePR`: PATCH the pull request to the closed
state. -/
def API.closePR (api : API) (pullRequest : PRRef) : M Unit := fun w =>
  match remoteCall (.prPatch pullRequest.number "closed") w with
  | (.resolved _, w1) =>
      (.resolved (), { w1 with prs := setPRState w1.prs pullRequest.number "closed" false })
  | (.rejected e, w1) => (.rejected e, w1)
  | (.pending, w1) => (.pending, w1)

/- ------------------------------------------------------------------ -/
/- Metadata store.                                                     -/
/- ------------------------------------------------------------------ -/

/-- Bootstrap path of `checkMetadataRef`: upload a placeholder readme
blob, create a tree holding it (no base tree), commit, and create the
dedicated metadata ref at that commit. -/
def API.bootstrapMetadataRef (api : API) : M Sha := do
  let readmeSha ← api.uploadBlob
  let treeSha ← api.createTree none
    [TreeEntryItem.mk "README.md" "100644" "blob" (some readmeSha)]
  let response ← api.commit "First Commit" { sha := treeSha, parentSha := none }
  let sha ← api.createRef "meta" "_netlify_cms" response.sha
  pure sha

/-- Embeds `API.checkMetadataRef`: read the dedicated metadata ref; any
failure (including the 404 of an absent ref) is caught and triggers the
idempotent bootstrap.  Returns the commit sha the ref points at. -/
def API.checkMetadataRef (api : API) : M Sha := fun w =>
  match remoteCall (.refRead "meta" "_netlify_cms") w with
  | (.resolved _, w1) =>
      match w1.metaRef with
      | some sha => (.resolved sha, w1)
      | none => api.bootstrapMetadataRef w1
  | (.rejected _, w1) => api.bootstrapMetadataRef w1
  | (.pending, w1) => (.pending, w1)

/-- Body of `storeMetadata` run inside the semaphore slot: check the
metadata ref, upload the JSON blob, build a tree with the single path
change, commit, advance the ref (no force), and populate the local
cache with a five-minute expiry.  The metadata tree contents visible
through the ref are updated together with the ref. -/
def API.storeMetadataBody (api : API) (key : String) (data : Metadata) :
    M Unit := do
  let branchSha ← api.checkMetadataRef
  let blobSha ← api.uploadBlob
  let changeTree ← api.updateTree branchSha
    [TreeChange.mk (some blobSha) (key ++ ".json")]
  let response ← api.commit ("Updating “" ++ key ++ "” metadata") changeTree
  api.patchRef "meta" "_netlify_cms" response.sha false
  fun w =>
    (.resolved (),
     { w with metaFiles := setKey w.metaFiles key data,
              cache := setKey w.cache ("gh.meta." ++ key)
                         (w.time + 300000, data) })

/-- Embeds `API.storeMetadata`: take the single-slot semaphore, run the
body; on success leave the slot and resolve; on failure reject WITHOUT
leaving the slot (the source catch calls only `reject(err)`), so the
slot stays taken.  A call finding the slot taken models a queued
callback that can only run once the slot is released. -/
def API.storeMetadata (api : API) (key : String) (data : Metadata) :
    M Unit := fun w =>
  if w.semTaken then (.pending, w)
  else
    match api.storeMetadataBody key data { w with semTaken := true } with
    | (.resolved _, w1) => (.resolved (), { w1 with semTaken := false })
    | (.rejected e, w1) => (.rejected e, w1)
    | (.pending, w1) => (.pending, w1)

/-- Body of `deleteMetadata` run inside the semaphore slot: check the
metadata ref, build a tree removing `<key>.json` (null sha), commit,
and advance the ref.  The local cache is not touched. -/
def API.deleteMetadataBody (api : API) (key : String) : M Unit := do
  let branchSha ← api.checkMetadataRef
  let changeTree ← api.updateTree branchSha
    [TreeChange.mk none (key ++ ".json")]
  let response ← api.commit ("Deleting “" ++ key ++ "” metadata") changeTree
  api.patchRef "meta" "_netlify_cms" response.sha false
  fun w => (.resolved (), { w with metaFiles := eraseKey w.metaFiles key })

/-- Embeds `API.deleteMetadata`: take the semaphore, run the body; on
success and on failure alike, leave the slot and resolve (the catch
swallows the error). -/
def API.deleteMetadata (api : API) (key : String) : M Unit := fun w =>
  if w.semTaken then (.pending, w)
  else
    match api.deleteMetadataBody key { w with semTaken := true } with
    | (.resolved _, w1) => (.resolved (), { w1 with semTaken := false })
    | (.rejected _, w1) => (.resolved (), { w1 with semTaken := false })
    | (.pending, w1) => (.pending, w1)

/-- URL path used by the remote read of `retrieveMetadata`: the
repository contents path in the standard variant, and the fork
owner/repo contents path (split off the first two content-key
segments) in the open-authoring variant. -/
def API.metadataReadPath (api : API) (key : String) : String :=
  if !api.useOpenAuthoring then
    api.repoURL ++ "/contents/" ++ key ++ ".json"
  else
    let parts := key.splitOn "/"
    let user := parts.getD 0 ""
    let repo := parts.getD 1 ""
    "/repos/" ++ user ++ "/" ++ repo ++ "/contents/" ++ key ++ ".json"

/-- Embeds `API.retrieveMetadata`: an unexpired local cache entry is
returned without any remote call; otherwise the metadata JSON is read
from the dedicated ref (a missing document rejects, the error handler
rethrows). -/
def API.retrieveMetadata (api : API) (key : String) : M Metadata := fun w =>
  match lookupKey w.cache ("gh.meta." ++ key) with
  | some cached =>
      if cached.1 > w.time then (.resolved cached.2, w)
      else
        match remoteCall (.contentsRead (api.metadataReadPath key)) w with
        | (.resolved _, w1) =>
            match lookupKey w1.metaFiles key with
            | some data => (.resolved data, w1)
            | none => (.rejected (.apiError "Not Found" 404), w1)
        | (.rejected e, w1) => (.rejected e, w1)
        | (.pending, w1) => (.pending, w1)
  | none =>
      match remoteCall (.contentsRead (api.metadataReadPath key)) w with
      | (.resolved _, w1) =>
          match lookupKey w1.metaFiles key with
          | some data => (.resolved data, w1)
          | none => (.rejected (.apiError "Not Found" 404), w1)
      | (.rejected e, w1) => (.rejected e, w1)
      | (.pending, w1) => (.pending, w1)

/- ------------------------------------------------------------------ -/
/- Rebase engine.                                                      -/
/- ------------------------------------------------------------------ -/

/-- Embeds `API.getCommitsDiff`: compare two commits and return the
changed-files list (supplied by the diff oracle of the world). -/
def API.getCommitsDiff (api : API) (baseSha headSha : Sha) :
    M (List CompareFile) := fun w =>
  match remoteCall (.compareRead baseSha headSha) w with
  | (.resolved _, w1) =>
      match lookupDiff w1.diffs baseSha headSha with
      | some files => (.resolved files, w1)
      | none => (.rejected (.apiError "Not Found" 404), w1)
  | (.rejected e, w1) => (.rejected e, w1)
  | (.pending, w1) => (.pending, w1)

/-- Embeds `API.rebaseSingleCommit`: diff the commit against its own
first parent, translate the diff (removed files become null-sha
deletions; a rename becomes a deletion of the previous path plus an
addition of the new path with the content sha; everything else an
addition), build a tree on the new base, and recreate the commit with
parent = the new base, preserving message, author and committer. -/
def API.rebaseSingleCommit (api : API) (baseCommit commit : CompareCommit) :
    M CompareCommit := do
  let files ← api.getCommitsDiff ((commit.parents.head?).getD 0) commit.sha
  let treeFiles := files.foldl (fun arr file =>
    if file.status = "removed" then
      arr ++ [TreeChange.mk none file.filename]
    else if file.status = "renamed" then
      arr ++ [TreeChange.mk none (file.previous_filename.getD ""),
              TreeChange.mk (some file.sha) file.filename]
    else
      arr ++ [TreeChange.mk (some file.sha) file.filename]) []
  let tree ← api.updateTree baseCommit.sha treeFiles
  api.createCommit commit.commit.message tree.sha [baseCommit.sha]
    commit.commit.author commit.commit.committer

/-- Embeds `API.rebaseCommits`: if the commit list is empty or the
first commit is already based on the target base, return
`last(commits)` (which is `undefined`, i.e. `none`, for an empty
list) without issuing any call; otherwise fold the commits
left-to-right, rebasing each onto the previous result. -/
def API.rebaseCommits (api : API) (baseCommit : CompareCommit)
    (commits : List CompareCommit) : M (Option CompareCommit) :=
  match commits with
  | [] => fun w => (.resolved none, w)
  | c :: _ =>
      if c.parents.head? = some baseCommit.sha then
        fun w => (.resolved commits.getLast?, w)
      else do
        let newHead ← commits.foldl
          (fun lastCommitPromise commit => do
            let newParent ← lastCommitPromise
            api.rebaseSingleCommit newParent commit)
          (pure baseCommit)
        pure (some newHead)

/- ------------------------------------------------------------------ -/
/- Workflow engine.                                                    -/
/- ------------------------------------------------------------------ -/

/-- Run a promise without awaiting it (fire and forget): the source
calls some operations without `await`; their effects still happen, and
their settlement does not influence the surrounding function.  The
embedding sequences such a call to completion and discards its
outcome. -/
def M.spawn {α : Type} (x : M α) : M Unit := fun w =>
  match x w with
  | (_, w1) => (.resolved (), w1)

/-- Commit message assembled by `forceMergePR` from the merged file
paths. -/
def forceMergeCommitMessage (files : List MediaFile) : String :=
  files.foldl (fun m file => m ++ "\n* \"" ++ file.path ++ "\"")
    "Automatically generated. Merged on Netlify CMS\n\nForce merge of:"

/-- Embeds `API.forceMergePR`: build a tree from the current
default-branch tip plus the entry and media files, commit on it, and
patch the default branch ref to the new commit.  The `patchBranch`
call passes no options, so the ref update is NOT forced. -/
def API.forceMergePR (api : API) (objects : MetaDataObjects) : M Unit := do
  let files := objects.files ++ [objects.entry]
  let commitMessage := forceMergeCommitMessage files
  let branchSha ← api.getDefaultBranch
  let changeTree ← api.updateTree branchSha
    (files.map (fun file => TreeChange.mk (some file.sha) file.path))
  let response ← api.commit commitMessage changeTree
  api.patchBranch api.branch response.sha false

/-- Test for `error instanceof APIError && error.status === s`: true
exactly for an `APIError` carrying the given HTTP status. -/
def Err.isApiErrorWithStatus : Err → Nat → Bool
  | .apiError _ s, t => s = t
  | .otherError _, _ => false

/-- Embeds `API.mergePR`: PUT the pull-request merge; the outcome is
given by the world's merge oracle.  An `APIError` with HTTP status 405
is caught and triggers exactly one `forceMergePR`; any other error is
rethrown unchanged. -/
def API.mergePR (api : API) (pullrequest : PRRef) (objects : MetaDataObjects) :
    M Unit := fun w =>
  let w1 := { w with log := w.log ++ [RemoteOp.prMerge pullrequest.number] }
  match w1.mergeOutcome with
  | none =>
      (.resolved (),
       { w1 with prs := setPRState w1.prs pullrequest.number "closed" true })
  | some e =>
      if e.isApiErrorWithStatus 405 then api.forceMergePR objects w1
      else (.rejected e, w1)

/-- Embeds `API.publishUnpublishedEntry`: derive key and branch,
retrieve metadata, merge the tracked pull request (the source casts
`metadata.pr` to `PR`; a placeholder stands in when it is absent), then
delete the branch and the metadata document. -/
def API.publishUnpublishedEntry (api : API) (collectionName slug : String) :
    M Metadata := do
  let contentKey := api.generateContentKey collectionName slug
  let branchName := api.generateBranchName contentKey
  let metadata ← api.retrieveMetadata contentKey
  api.mergePR (metadata.pr.getD { number := 0, head := 0 }) metadata.objects
  api.deleteBranch branchName
  api.deleteMetadata contentKey
  pure metadata

/-- Embeds `API.deleteUnpublishedEntry`: close any tracked pull
request, delete the branch, delete the metadata document. -/
def API.deleteUnpublishedEntry (api : API) (collectionName slug : String) :
    M Unit := do
  let contentKey := api.generateContentKey collectionName slug
  let branchName := api.generateBranchName contentKey
  let metadata ← api.retrieveMetadata contentKey
  match metadata.pr with
  | some pr => api.closePR pr
  | none => pure ()
  api.deleteBranch branchName
  api.deleteMetadata contentKey

/-- Embeds `API.getUpdatedOpenAuthoringMetadata`: reconcile the stored
metadata of one entry against the remote pull-request state.  The
store in the no-PR branch and the entry deletion in the merged branch
are not awaited by the source; they are run with `M.spawn`. -/
def API.getUpdatedOpenAuthoringMetadata (api : API) (contentKey : String)
    (metadataArg : Option Metadata) : M (Option Metadata) := do
  let metadata ← match metadataArg with
    | some m => M.pure m
    | none => api.retrieveMetadata contentKey
  match metadata.pr with
  | none =>
      if metadata.status ≠ "draft" then do
        let newMetadata := { metadata with status := "draft" }
        M.spawn (api.storeMetadata contentKey newMetadata)
        pure (some newMetadata)
      else
        pure (some metadata)
  | some prMetadata => do
      let originPRInfo ← api.getPullRequest prMetadata.number
      if originPRInfo.state = "closed" ∧ originPRInfo.mergedAt then do
        let slug := api.slugFromContentKey contentKey metadata.collection
        M.spawn (api.deleteUnpublishedEntry metadata.collection slug)
        pure none
      else if originPRInfo.state = "closed" ∧ ¬ originPRInfo.mergedAt then
        if metadata.status ≠ "draft" then do
          let newMetadata := { metadata with status := "draft" }
          api.storeMetadata contentKey newMetadata
          pure (some newMetadata)
        else
          pure (some metadata)
      else
        if metadata.status ≠ "pending_review" then do
          let newMetadata := { metadata with status := "pending_review" }
          api.storeMetadata contentKey newMetadata
          pure (some newMetadata)
        else
          pure (some metadata)

/-- Embeds `API.migrateToVersion1`: recreate a legacy branch under the
current naming scheme at the old pull-request head, open a new pull
request, store version-1 metadata, then tear down the old pull
request, branch and metadata. -/
def API.migrateToVersion1 (api : API) (branch : Branch)
    (metaData : Metadata) : M Branch := do
  let oldContentKey := branch.ref.drop ("refs/heads/cms/".length)
  let newContentKey := metaData.collection ++ "/" ++ oldContentKey
  let newBranchName := "cms/" ++ newContentKey
  let newBranch ← api.createBranch newBranchName
    ((metaData.pr.getD { number := 0, head := 0 }).head)
  let pr ← api.createPR metaData.commitMessage newBranchName
  api.storeMetadata newContentKey { metaData with
    pr := some { number := pr.number, head := pr.head },
    branch := newBranchName,
    version := some "1" }
  api.closePR (metaData.pr.getD { number := 0, head := 0 })
  api.deleteBranch metaData.branch
  api.deleteMetadata oldContentKey
  pure newBranch

/-- Embeds `API.migrateBranch`: migrate a branch with legacy metadata
(no version field) to the current scheme. -/
def API.migrateBranch (api : API) (branch : Branch) : M Branch := do
  let metadata ← api.retrieveMetadata (api.contentKeyFromRef branch.ref)
  match metadata.version with
  | none => api.migrateToVersion1 branch metadata
  | some _ => pure branch

/-- Embeds `API.getPRsForBranchName`: list open pull requests whose
head matches the branch name (a substring match re-checked by the
caller); the embedding returns the open pull requests. -/
def API.getPRsForBranchName (api : API) (branchName : String) :
    M (List PRInfo) := fun w =>
  match remoteCall (.prsList branchName) w with
  | (.resolved _, w1) =>
      (.resolved (w1.prs.filter (fun pr => pr.state = "open")), w1)
  | (.rejected e, w1) => (.rejected e, w1)
  | (.pending, w1) => (.pending, w1)

/-- Refs listing of `listUnpublishedBranches`: all branches under the
CMS prefix (an empty match is a 404 replaced by the empty array). -/
def API.listCmsBranches (api : API) : M (List Branch) := fun w =>
  match remoteCall (.refsList (api.repoURL ++ "/git/refs/heads/cms")) w with
  | (.resolved _, w1) =>
      (.resolved ((w1.branches.filter
          (fun p => strStartsWith p.1 cmsBranchPrefixValue)).map
          (fun p => { ref := "refs/heads/" ++ p.1 })), w1)
  | (.rejected e, w1) => (.rejected e, w1)
  | (.pending, w1) => (.pending, w1)

/-- Open-authoring filter of `listUnpublishedBranches`: run the
reconciler over each candidate branch and keep only branches whose
entry was not removed and whose reconciliation did not fail
(`onlySuccessfulPromises`).  The source runs the per-branch promises
concurrently; they are processed in list order here. -/
def API.openAuthoringFilterBranches (api : API) :
    List Branch → M (List Branch)
  | [] => M.pure []
  | b :: rest => fun w =>
      match api.getUpdatedOpenAuthoringMetadata
          (api.contentKeyFromRef b.ref) none w with
      | (.resolved (some _), w1) =>
          match api.openAuthoringFilterBranches rest w1 with
          | (.resolved bs, w2) => (.resolved (b :: bs), w2)
          | (.rejected e, w2) => (.rejected e, w2)
          | (.pending, w2) => (.pending, w2)
      | (.resolved none, w1) => api.openAuthoringFilterBranches rest w1
      | (.rejected _, w1) => api.openAuthoringFilterBranches rest w1
      | (.pending, w1) => (.pending, w1)

/-- Non-fork migration step of `listUnpublishedBranches`: migrate each
branch, dropping branches whose migration fails
(`onlySuccessfulPromises`). -/
def API.migrateFilterBranches (api : API) : List Branch → M (List Branch)
  | [] => M.pure []
  | b :: rest => fun w =>
      match api.migrateBranch b w with
      | (.resolved nb, w1) =>
          match api.migrateFilterBranches rest w1 with
          | (.resolved bs, w2) => (.resolved (nb :: bs), w2)
          | (.rejected e, w2) => (.rejected e, w2)
          | (.pending, w2) => (.pending, w2)
      | (.rejected _, w1) => api.migrateFilterBranches rest w1
      | (.pending, w1) => (.pending, w1)

/-- Embeds `API.listUnpublishedBranches`: enumerate branches under the
CMS prefix; in the open-authoring variant filter through the
reconciler, otherwise keep branches with a matching open pull request
and migrate legacy branches. -/
def API.listUnpublishedBranches (api : API) : M (List Branch) := do
  let branches ← api.listCmsBranches
  if api.useOpenAuthoring then
    api.openAuthoringFilterBranches branches
  else do
    let prs ← api.getPRsForBranchName cmsBranchPrefixValue
    let withOpenPRs := branches.filter
      (fun b => prs.any (fun pr => pr.headRef = api.branchNameFromRef b.ref))
    api.migrateFilterBranches withOpenPRs

/- ------------------------------------------------------------------ -/
/- Never-pending infrastructure: an embedded operation that does not   -/
/- wait on the metadata semaphore always settles.                      -/
/- ------------------------------------------------------------------ -/

/-- A computation settles (resolves or rejects) in every world. -/
def NeverPending {α : Type} (x : M α) : Prop :=
  ∀ w, (x w).1 ≠ Outcome.pending

theorem M.pure_neverPending {α : Type} (a : α) : NeverPending (M.pure a) := by
  intro w
  simp [M.pure]

theorem M.bind_neverPending {α β : Type} {x : M α} {f : α → M β}
    (hx : NeverPending x) (hf : ∀ a, NeverPending (f a)) :
    NeverPending (M.bind x f) := by
  intro w
  unfold M.bind
  rcases h : x w with ⟨o, w1⟩
  cases o with
  | resolved a => exact hf a w1
  | rejected e => simp
  | pending => exact absurd (congrArg Prod.fst h) (hx w)

theorem bindOp_neverPending {α β : Type} {x : M α} {f : α → M β}
    (hx : NeverPending x) (hf : ∀ a, NeverPending (f a)) :
    NeverPending (x >>= f) :=
  M.bind_neverPending hx hf

theorem remoteCall_neverPending (op : RemoteOp) : NeverPending (remoteCall op) := by
  intro w
  unfold remoteCall
  match w.faults with
  | [] => simp
  | b :: rest => dsimp; split <;> simp

theorem freshSha_neverPending : NeverPending freshSha := by
  intro w
  simp [freshSha]

theorem uploadBlob_neverPending (api : API) : NeverPending api.uploadBlob := by
  unfold API.uploadBlob
  exact bindOp_neverPending freshSha_neverPending fun sha =>
    bindOp_neverPending (remoteCall_neverPending _) fun _ =>
      M.pure_neverPending _

theorem createTree_neverPending (api : API) (baseSha : Option Sha)
    (tree : List TreeEntryItem) : NeverPending (api.createTree baseSha tree) := by
  unfold API.createTree
  exact bindOp_neverPending freshSha_neverPending fun sha =>
    bindOp_neverPending (remoteCall_neverPending _) fun _ =>
      M.pure_neverPending _

theorem updateTree_neverPending (api : API) (baseSha : Sha)
    (files : List TreeChange) : NeverPending (api.updateTree baseSha files) := by
  unfold API.updateTree
  exact bindOp_neverPending (createTree_neverPending _ _ _) fun _ =>
    M.pure_neverPending _

theorem createCommit_neverPending (api : API) (message : String)
    (treeSha : Sha) (parents : List Sha) (author committer : Option GitPerson) :
    NeverPending (api.createCommit message treeSha parents author committer) := by
  unfold API.createCommit
  exact bindOp_neverPending freshSha_neverPending fun sha =>
    bindOp_neverPending (remoteCall_neverPending _) fun _ =>
      M.pure_neverPending _

theorem commit_neverPending (api : API) (message : String)
    (changeTree : ChangeTree) : NeverPending (api.commit message changeTree) := by
  unfold API.commit
  exact createCommit_neverPending _ _ _ _ _ _

theorem createRef_neverPending (api : API) (typ name : String) (sha : Sha) :
    NeverPending (api.createRef typ name sha) := by
  intro w
  unfold API.createRef
  rcases h : remoteCall (.refCreate typ name sha) w with ⟨o, w1⟩
  cases o with
  | resolved a => dsimp; split <;> simp
  | rejected e => simp
  | pending => exact absurd (congrArg Prod.fst h) (remoteCall_neverPending _ w)

theorem patchRef_neverPending (api : API) (typ name : String) (sha : Sha)
    (force : Bool) : NeverPending (api.patchRef typ name sha force) := by
  intro w
  unfold API.patchRef
  rcases h : remoteCall (.refPatch typ name sha force) w with ⟨o, w1⟩
  cases o with
  | resolved a =>
      dsimp; split
      · match lookupKey w1.branches name with
        | some _ => simp
        | none => simp
      · simp
  | rejected e => simp
  | pending => exact absurd (congrArg Prod.fst h) (remoteCall_neverPending _ w)

theorem bootstrapMetadataRef_neverPending (api : API) :
    NeverPending api.bootstrapMetadataRef := by
  unfold API.bootstrapMetadataRef
  exact bindOp_neverPending (uploadBlob_neverPending _) fun _ =>
    bindOp_neverPending (createTree_neverPending _ _ _) fun _ =>
      bindOp_neverPending (commit_neverPending _ _ _) fun _ =>
        bindOp_neverPending (createRef_neverPending _ _ _ _) fun _ =>
          M.pure_neverPending _

theorem checkMetadataRef_neverPending (api : API) :
    NeverPending api.checkMetadataRef := by
  intro w
  unfold API.checkMetadataRef
  rcases h : remoteCall (.refRead "meta" "_netlify_cms") w with ⟨o, w1⟩
  cases o with
  | resolved a =>
      dsimp
      match w1.metaRef with
      | some sha => simp
      | none => exact bootstrapMetadataRef_neverPending api w1
  | rejected e => exact bootstrapMetadataRef_neverPending api w1
  | pending => exact absurd (congrArg Prod.fst h) (remoteCall_neverPending _ w)

theorem deleteMetadataBody_neverPending (api : API) (key : String) :
    NeverPending (api.deleteMetadataBody key) := by
  unfold API.deleteMetadataBody
  exact bindOp_neverPending (checkMetadataRef_neverPending _) fun _ =>
    bindOp_neverPending (updateTree_neverPending _ _ _) fun _ =>
      bindOp_neverPending (commit_neverPending _ _ _) fun _ =>
        bindOp_neverPending (patchRef_neverPending _ _ _ _ _) fun _ =>
          fun w => by simp

/-- Core of claim C8: from a free semaphore slot, `deleteMetadata`
resolves and releases the slot, whatever the fault schedule makes the
remote delete sequence do. -/
theorem deleteMetadata_resolves (api : API) (key : String) (w : World)
    (h : w.semTaken = false) :
    (api.deleteMetadata key w).1 = Outcome.resolved () ∧
    (api.deleteMetadata key w).2.semTaken = false := by
  unfold API.deleteMetadata
  rw [h]
  dsimp
  rcases hb : api.deleteMetadataBody key { w with semTaken := true } with ⟨o, w2⟩
  cases o with
  | resolved a => simp
  | rejected e => simp
  | pending =>
      exact absurd (congrArg Prod.fst hb)
        (deleteMetadataBody_neverPending api key _)

/-- Claim C8: `deleteMetadata` never rejects — every failure of the
remote delete sequence is absorbed and the promise resolves — and two
consecutive `deleteMetadata` calls for the same key both succeed. -/
theorem deleteMetadata_never_rejects_and_idempotent (api : API) (key : String)
    (w : World) (h : w.semTaken = false) :
    (api.deleteMetadata key w).1 = Outcome.resolved () ∧
    (api.deleteMetadata key ((api.deleteMetadata key w).2)).1 =
      Outcome.resolved () := by
  refine ⟨(deleteMetadata_resolves api key w h).1, ?_⟩
  exact (deleteMetadata_resolves api key _
    (deleteMetadata_resolves api key w h).2).1

/- ------------------------------------------------------------------ -/
/- Concrete fixtures used by evaluation theorems and witnesses.        -/
/- ------------------------------------------------------------------ -/

/-- Standard-variant configuration (open authoring disabled). -/
def api0 : API :=
  { token := "t", branch := "master", useOpenAuthoring := false,
    repo := "owner/repo", originRepo := "owner/repo",
    squashMerges := false, initialWorkflowStatus := "draft" }

/-- Open-authoring (fork) configuration. -/
def apiOA : API :=
  { token := "t", branch := "master", useOpenAuthoring := true,
    repo := "forker/repo", originRepo := "owner/repo",
    squashMerges := false, initialWorkflowStatus := "draft" }

/-- A concrete metadata document used by the fixtures. -/
def md0 : Metadata :=
  { type := "PR",
    objects := { entry := { sha := 11, path := "content/posts/x.md" },
                 files := [{ sha := 12, path := "static/media/a.png" }] },
    branch := "cms/owner/repo/posts/x", status := "pending_publish",
    pr := some { number := 7, head := 21 },
    collection := "posts", commitMessage := "Create Post x",
    version := some "1", user := "jane", title := some "x",
    description := none, timeStamp := "2020-01-01T00:00:00Z" }

/-- A quiet base world: no faults, free semaphore, metadata ref
present. -/
def w0 : World :=
  { time := 1000, nextSha := 100, nextPrNumber := 50,
    userLogin := "jane", userName := "Jane",
    branches := [("master", 40), ("cms/owner/repo/posts/x", 21)],
    metaRef := some 30,
    metaFiles := [("owner/repo/posts/x", md0)],
    cache := [], prs := [], diffs := [],
    mergeOutcome := none, faults := [], semTaken := false, log := [] }

/-- Witness for claim C8 at a concrete world. -/
theorem deleteMetadata_never_rejects_and_idempotent_witness :
    (api0.deleteMetadata "owner/repo/posts/x" w0).1 = Outcome.resolved () ∧
    (api0.deleteMetadata "owner/repo/posts/x"
        ((api0.deleteMetadata "owner/repo/posts/x" w0).2)).1 =
      Outcome.resolved () :=
  deleteMetadata_never_rejects_and_idempotent api0 "owner/repo/posts/x" w0
    (by decide)

/- ------------------------------------------------------------------ -/
/- Claim C1: content-key derivation.                                   -/
/- ------------------------------------------------------------------ -/

/-- Claim C1 (code bug): the source's `generateContentKey` lacks a
`return` in the non-open-authoring branch, so the standard variant does
NOT return `collection/slug`: both variants return the repo-prefixed
key.  Evaluated at the failing input `("posts", "hello")` with the
standard-variant configuration: the result is repo-prefixed and
differs from the library key `posts/hello` that the code meant to
return (and that `slugFromContentKey`'s standard branch expects). -/
theorem generateContentKey_repo_prefixed_in_standard_variant :
    api0.useOpenAuthoring = false ∧
    api0.generateContentKey "posts" "hello" = "owner/repo/posts/hello" ∧
    libGenerateContentKey "posts" "hello" = "posts/hello" ∧
    api0.generateContentKey "posts" "hello" ≠
      libGenerateContentKey "posts" "hello" := by
  refine ⟨rfl, rfl, rfl, ?_⟩
  decide

/- ------------------------------------------------------------------ -/
/- Claim C6: round-trips of the codec.                                 -/
/- ------------------------------------------------------------------ -/

/-- Branch-name round-trip (first half of claim C6, which does hold):
for every content key, prefixing with `refs/heads/` plus the generated
branch name and then applying `contentKeyFromRef` recovers the key. -/
theorem branchName_roundTrip (api : API) (contentKey : String) :
    api.contentKeyFromRef ("refs/heads/" ++ api.generateBranchName contentKey)
      = contentKey := by
  unfold API.contentKeyFromRef API.generateBranchName cmsBranchPrefixValue
  apply String.eq_of_data_eq
  rw [String.data_drop]
  have h1 : ("refs/heads/" ++ ("cms" ++ "/" ++ contentKey)).data
      = ("refs/heads/" ++ ("cms" ++ "/")).data ++ contentKey.data := by simp
  have h2 : ("refs/heads/" ++ "cms" ++ "/").length
      = ("refs/heads/" ++ ("cms" ++ "/")).data.length := rfl
  rw [h1, h2]
  exact List.drop_left _ _

/-- Fork-variant content-key round-trip (also holds): with open
authoring enabled, `slugFromContentKey` recovers the slug from
`generateContentKey`. -/
theorem contentKey_roundTrip_fork (api : API) (c s : String)
    (h : api.useOpenAuthoring = true) :
    api.slugFromContentKey (api.generateContentKey c s) c = s := by
  unfold API.slugFromContentKey API.generateContentKey
  rw [h]
  dsimp
  apply String.eq_of_data_eq
  rw [String.data_drop]
  simp
  have h1 : api.repo.data ++ '/' :: (c.data ++ '/' :: s.data)
      = (api.repo.data ++ '/' :: (c.data ++ ['/'])) ++ s.data := by simp
  have hr : api.repo.length = api.repo.data.length := rfl
  have hc : c.length = c.data.length := rfl
  have h2 : api.repo.length + c.length + 2
      = (api.repo.data ++ '/' :: (c.data ++ ['/'])).length := by
    simp
    omega
  rw [h1, h2]
  exact List.drop_left _ _

/-- Claim C6 (code bug): the branch-name round-trip and the
fork-variant slug round-trip hold, but in the standard variant the
slug round-trip fails, because `generateContentKey` (missing `return`)
produces a repo-prefixed key while `slugFromContentKey` strips only
`collection/`.  Evaluated at the failing input: collection "posts",
slug "x", repo "owner/repo". -/
theorem contentKey_roundTrip_fails_in_standard_variant :
    api0.contentKeyFromRef
        ("refs/heads/" ++ api0.generateBranchName "posts/x") = "posts/x" ∧
    apiOA.slugFromContentKey (apiOA.generateContentKey "posts" "x") "posts"
      = "x" ∧
    api0.slugFromContentKey (api0.generateContentKey "posts" "x") "posts"
      = "repo/posts/x" ∧
    api0.slugFromContentKey (api0.generateContentKey "posts" "x") "posts"
      ≠ "x" := by
  refine ⟨rfl, rfl, rfl, ?_⟩
  decide

/- ------------------------------------------------------------------ -/
/- Claim C10: forced branch updates are restricted to CMS branches.    -/
/- ------------------------------------------------------------------ -/

/-- Claim C10: a forced `patchBranch` on a branch name outside the CMS
prefix rejects before any remote call (the world, including the remote
log, is unchanged); consequently a forced ref update is only ever
issued for CMS workflow branches. -/
theorem patchBranch_forced_update_guard :
    (∀ (api : API) (branchName : String) (sha : Sha) (w : World),
      api.assertCmsBranch branchName = false →
      api.patchBranch branchName sha true w =
        (Outcome.rejected (.otherError
          ("Only CMS branches can be force updated, cannot force update "
            ++ branchName)), w)) ∧
    (∀ (api : API) (branchName : String) (sha : Sha) (w : World),
      ((api.patchBranch branchName sha true w).2.log ≠ w.log) →
      api.assertCmsBranch branchName = true) := by
  constructor
  · intro api branchName sha w h
    unfold API.patchBranch
    rw [if_pos]
    simp [h]
  · intro api branchName sha w h
    by_cases hc : api.assertCmsBranch branchName = true
    · exact hc
    · exfalso
      apply h
      unfold API.patchBranch
      rw [if_pos]
      simp at hc
      simp [hc]

/-- Witness for claim C10: the default branch "master" is not a CMS
branch, so a forced patch rejects and issues no remote call. -/
theorem patchBranch_forced_update_guard_witness :
    api0.patchBranch "master" 99 true w0 =
      (Outcome.rejected (.otherError
        ("Only CMS branches can be force updated, cannot force update "
          ++ "master")), w0) :=
  patchBranch_forced_update_guard.1 api0 "master" 99 w0 (by decide)

/- ------------------------------------------------------------------ -/
/- Claim C2: release of the metadata write slot.                       -/
/- ------------------------------------------------------------------ -/

/-- World fixture for claim C2: the second remote call of the write
sequence fails (fault schedule [false, true]), the metadata ref is
present and the slot is initially free. -/
def w2fail : World :=
  { w0 with faults := [false, true] }

/-- Claim C2 (code bug): when the remote sequence of `storeMetadata`
fails, the promise rejects WITHOUT releasing the single-slot semaphore
(the source catch calls only `reject(err)`), so the slot stays taken
and a subsequent metadata write can never begin (it stays pending
forever); `deleteMetadata` under the identical failure does release
the slot and resolve.  Evaluated at the failing input: a store whose
blob upload fails. -/
theorem storeMetadata_failure_keeps_semaphore_slot :
    (api0.storeMetadata "owner/repo/posts/x" md0 w2fail).1 =
      Outcome.rejected (.apiError "remote failure" 500) ∧
    (api0.storeMetadata "owner/repo/posts/x" md0 w2fail).2.semTaken = true ∧
    (api0.deleteMetadata "owner/repo/posts/x"
        ((api0.storeMetadata "owner/repo/posts/x" md0 w2fail).2)).1 =
      Outcome.pending ∧
    (api0.deleteMetadata "owner/repo/posts/x" w2fail).1 =
      Outcome.resolved () ∧
    (api0.deleteMetadata "owner/repo/posts/x" w2fail).2.semTaken = false := by
  refine ⟨?_, ?_, ?_, ?_, ?_⟩ <;> decide

/- ------------------------------------------------------------------ -/
/- Claim C4: rebase short-circuit.                                     -/
/- ------------------------------------------------------------------ -/

/-- Head of a branch as recorded by a compare response: the last of
the commits unique to the branch.  The source reads it as
`last(commits)` (which is `undefined` when the list is empty). -/
def compareBranchHead (commits : List CompareCommit) : Option CompareCommit :=
  commits.getLast?

/-- Claim C4: when the unique-commit list is empty, or the first
unique commit's recorded parent equals the new base commit's sha,
`rebaseCommits` replays nothing — the world (and so the remote log) is
unchanged — and returns the branch's recorded head (`last(commits)`)
as is. -/
theorem rebaseCommits_short_circuit_returns_head (api : API)
    (baseCommit : CompareCommit) (commits : List CompareCommit) (w : World)
    (h : commits = [] ∨
      ∃ c rest, commits = c :: rest ∧ c.parents.head? = some baseCommit.sha) :
    api.rebaseCommits baseCommit commits w =
      (Outcome.resolved (compareBranchHead commits), w) := by
  rcases h with h | ⟨c, rest, hc, hp⟩
  · subst h
    rfl
  · subst hc
    unfold API.rebaseCommits
    dsimp only
    rw [if_pos hp]
    rfl

/-- Witness for claim C4: one unique commit already based on the
target base. -/
theorem rebaseCommits_short_circuit_returns_head_witness :
    api0.rebaseCommits
        { sha := 40, parents := [], commit :=
            { message := "base", author := none, committer := none } }
        [{ sha := 21, parents := [40], commit :=
            { message := "one", author := none, committer := none } }] w0 =
      (Outcome.resolved (compareBranchHead
        [{ sha := 21, parents := [40], commit :=
            { message := "one", author := none, committer := none } }]), w0) :=
  rebaseCommits_short_circuit_returns_head api0 _ _ w0
    (Or.inr ⟨_, [], rfl, by decide⟩)

/- ------------------------------------------------------------------ -/
/- Claim C5: tree translation and authorship preservation of a         -/
/- replayed commit.                                                    -/
/- ------------------------------------------------------------------ -/

/-- Tree changes a replayed commit applies onto its new base, file by
file: a removed file becomes a null-sha deletion; a renamed file
becomes a deletion of the previous path plus an addition of the new
path carrying the content sha; every other changed file becomes an
addition with its sha. -/
def rebaseFileTreeChanges : List CompareFile → List TreeChange
  | [] => []
  | file :: rest =>
      (if file.status = "removed" then [TreeChange.mk none file.filename]
       else if file.status = "renamed" then
         [TreeChange.mk none (file.previous_filename.getD ""),
          TreeChange.mk (some file.sha) file.filename]
       else [TreeChange.mk (some file.sha) file.filename])
      ++ rebaseFileTreeChanges rest

theorem rebase_foldl_eq (files : List CompareFile) (acc : List TreeChange) :
    files.foldl (fun arr file =>
      if file.status = "removed" then
        arr ++ [TreeChange.mk none file.filename]
      else if file.status = "renamed" then
        arr ++ [TreeChange.mk none (file.previous_filename.getD ""),
                TreeChange.mk (some file.sha) file.filename]
      else
        arr ++ [TreeChange.mk (some file.sha) file.filename]) acc
    = acc ++ rebaseFileTreeChanges files := by
  induction files generalizing acc with
  | nil => simp [rebaseFileTreeChanges]
  | cons f rest ih =>
      simp only [List.foldl_cons]
      rw [ih]
      by_cases h1 : f.status = "removed"
      · simp [rebaseFileTreeChanges, h1]
      · by_cases h2 : f.status = "renamed" <;>
          simp [rebaseFileTreeChanges, h1, h2]

/-- Equation for `remoteCall` under an empty fault schedule. -/
theorem remoteCall_ok (op : RemoteOp) (w : World) (h : w.faults = []) :
    remoteCall op w = (Outcome.resolved (), { w with log := w.log ++ [op] }) := by
  unfold remoteCall
  rw [h]

/-- Claim C5: replaying one commit translates its diff into the tree
changes of `rebaseFileTreeChanges` (renames become delete-old plus
add-new with the original content sha, removals become null-sha
deletions, everything else additions), builds that tree on the new
base, and creates the new commit with parent equal to the new base
commit while preserving the original message, author and committer. -/
theorem rebaseSingleCommit_translates_diff_and_preserves_authorship
    (api : API) (baseCommit commit : CompareCommit) (p : Sha) (ps : List Sha)
    (files : List CompareFile) (w : World)
    (hfaults : w.faults = [])
    (hparents : commit.parents = p :: ps)
    (hdiff : lookupDiff w.diffs p commit.sha = some files) :
    api.rebaseSingleCommit baseCommit commit w =
      (Outcome.resolved
        { sha := w.nextSha + 1, parents := [baseCommit.sha],
          commit := commit.commit },
       { w with
          nextSha := w.nextSha + 2,
          log := w.log ++
            [RemoteOp.compareRead p commit.sha,
             RemoteOp.treeCreate (some baseCommit.sha)
               ((rebaseFileTreeChanges files).map (fun file =>
                 TreeEntryItem.mk (trimStartSlash file.path) "100644" "blob"
                   file.sha))
               w.nextSha,
             RemoteOp.commitCreate commit.commit.message w.nextSha
               [baseCommit.sha] commit.commit.author commit.commit.committer
               (w.nextSha + 1)] }) := by
  unfold API.rebaseSingleCommit API.getCommitsDiff API.updateTree
    API.createTree API.createCommit
  simp only [Bind.bind, Pure.pure, M.bind, M.pure, freshSha, hparents,
    List.head?_cons, Option.getD_some]
  rw [remoteCall_ok _ _ hfaults]
  dsimp only
  rw [hdiff]
  dsimp only
  rw [rebase_foldl_eq files []]
  rw [remoteCall_ok _ _ (by simp [hfaults])]
  dsimp only
  rw [remoteCall_ok _ _ (by simp [hfaults])]
  dsimp only
  simp [List.append_assoc]

/-- Author identity fixture for the C5 witness. -/
def person5 : GitPerson :=
  { name := "Ann", email := "ann@example.com", date := "2020-01-02" }

/-- New-base commit fixture for the C5 witness. -/
def commit5base : CompareCommit :=
  { sha := 40, parents := [],
    commit := { message := "base", author := none, committer := none } }

/-- Replayed commit fixture for the C5 witness: renames a.md to
b.md. -/
def commit5 : CompareCommit :=
  { sha := 21, parents := [10],
    commit := { message := "Rename a to b", author := some person5,
                committer := some person5 } }

/-- Diff fixture for the C5 witness. -/
def files5 : List CompareFile :=
  [{ status := "renamed", filename := "b.md",
     previous_filename := some "a.md", sha := 7 }]

/-- World fixture for the C5 witness. -/
def w5 : World := { w0 with diffs := [((10, 21), files5)] }

/-- Witness for claim C5: replaying one commit that renames a.md to
b.md issues a tree creation deleting a.md (null sha) and adding b.md
with the original content sha 7, and creates the commit with parent 40
(the new base) and the original message, author and committer. -/
theorem rebaseSingleCommit_translates_diff_witness :
    api0.rebaseSingleCommit commit5base commit5 w5 =
      (Outcome.resolved
        { sha := 101, parents := [40], commit := commit5.commit },
       { w5 with
          nextSha := 102,
          log := [RemoteOp.compareRead 10 21,
                  RemoteOp.treeCreate (some 40)
                    [TreeEntryItem.mk "a.md" "100644" "blob" none,
                     TreeEntryItem.mk "b.md" "100644" "blob" (some 7)] 100,
                  RemoteOp.commitCreate "Rename a to b" 100 [40]
                    (some person5) (some person5) 101] }) := by
  have h := rebaseSingleCommit_translates_diff_and_preserves_authorship
    api0 commit5base commit5 10 [] files5 w5 rfl rfl (by decide)
  exact h.trans (by decide)

/- ------------------------------------------------------------------ -/
/- Helper equations for the metadata store under a quiet world         -/
/- (no transport faults, metadata ref present, free slot).             -/
/- ------------------------------------------------------------------ -/

theorem checkMetadataRef_ok (api : API) (w : World) (m : Sha)
    (hf : w.faults = []) (hm : w.metaRef = some m) :
    api.checkMetadataRef w =
      (Outcome.resolved m,
       { w with log := w.log ++ [RemoteOp.refRead "meta" "_netlify_cms"] }) := by
  unfold API.checkMetadataRef
  rw [remoteCall_ok _ _ hf]
  dsimp only
  rw [hm]

theorem storeMetadata_ok (api : API) (key : String) (data : Metadata)
    (w : World) (m : Sha) (hs : w.semTaken = false) (hf : w.faults = [])
    (hm : w.metaRef = some m) :
    api.storeMetadata key data w =
      (Outcome.resolved (),
       { w with
          nextSha := w.nextSha + 3,
          metaRef := some (w.nextSha + 2),
          metaFiles := setKey w.metaFiles key data,
          cache := setKey w.cache ("gh.meta." ++ key) (w.time + 300000, data),
          log := w.log ++
            [RemoteOp.refRead "meta" "_netlify_cms",
             RemoteOp.blobCreate w.nextSha,
             RemoteOp.treeCreate (some m)
               [TreeEntryItem.mk (trimStartSlash (key ++ ".json")) "100644"
                 "blob" (some w.nextSha)] (w.nextSha + 1),
             RemoteOp.commitCreate ("Updating “" ++ key ++ "” metadata")
               (w.nextSha + 1) [m] none none (w.nextSha + 2),
             RemoteOp.refPatch "meta" "_netlify_cms" (w.nextSha + 2) false] }) := by
  unfold API.storeMetadata
  rw [if_neg (show ¬ w.semTaken = true by simp [hs])]
  unfold API.storeMetadataBody
  simp only [Bind.bind, Pure.pure, M.bind, M.pure]
  rw [checkMetadataRef_ok api _ m (by simp [hf]) (by simp [hm])]
  dsimp only
  unfold API.uploadBlob API.updateTree API.createTree API.commit
    API.createCommit API.patchRef
  simp only [Bind.bind, Pure.pure, M.bind, M.pure, freshSha]
  rw [remoteCall_ok _ _ (by simp [hf])]
  dsimp only
  rw [remoteCall_ok _ _ (by simp [hf])]
  dsimp only
  rw [remoteCall_ok _ _ (by simp [hf])]
  dsimp only
  rw [remoteCall_ok _ _ (by simp [hf])]
  dsimp only
  rw [if_neg (by decide : ¬ ("meta" : String) = "heads")]
  simp [hs, List.append_assoc]

theorem deleteMetadata_ok (api : API) (key : String) (w : World) (m : Sha)
    (hs : w.semTaken = false) (hf : w.faults = []) (hm : w.metaRef = some m) :
    api.deleteMetadata key w =
      (Outcome.resolved (),
       { w with
          nextSha := w.nextSha + 2,
          metaRef := some (w.nextSha + 1),
          metaFiles := eraseKey w.metaFiles key,
          log := w.log ++
            [RemoteOp.refRead "meta" "_netlify_cms",
             RemoteOp.treeCreate (some m)
               [TreeEntryItem.mk (trimStartSlash (key ++ ".json")) "100644"
                 "blob" none] w.nextSha,
             RemoteOp.commitCreate ("Deleting “" ++ key ++ "” metadata")
               w.nextSha [m] none none (w.nextSha + 1),
             RemoteOp.refPatch "meta" "_netlify_cms" (w.nextSha + 1) false] }) := by
  unfold API.deleteMetadata
  rw [if_neg (show ¬ w.semTaken = true by simp [hs])]
  unfold API.deleteMetadataBody
  simp only [Bind.bind, Pure.pure, M.bind, M.pure]
  rw [checkMetadataRef_ok api _ m (by simp [hf]) (by simp [hm])]
  dsimp only
  unfold API.updateTree API.createTree API.commit API.createCommit API.patchRef
  simp only [Bind.bind, Pure.pure, M.bind, M.pure, freshSha]
  rw [remoteCall_ok _ _ (by simp [hf])]
  dsimp only
  rw [remoteCall_ok _ _ (by simp [hf])]
  dsimp only
  rw [remoteCall_ok _ _ (by simp [hf])]
  dsimp only
  rw [if_neg (by decide : ¬ ("meta" : String) = "heads")]
  simp [hs, List.append_assoc]

/- ------------------------------------------------------------------ -/
/- Claim C9: cache population and expiry.                              -/
/- ------------------------------------------------------------------ -/

/-- Claim C9: a successful `storeMetadata` leaves a cache entry whose
expiry is exactly 300000 ms (5 minutes) past the write time; a
`retrieveMetadata` while the entry is unexpired returns the cached
data with the world untouched (in particular no remote call is
issued); once the entry is expired, the read issues a fresh remote
contents read and returns the remotely stored document. -/
theorem metadata_cache_five_minute_expiry :
    (∀ (api : API) (key : String) (data : Metadata) (w : World) (m : Sha),
      w.semTaken = false → w.faults = [] → w.metaRef = some m →
      (api.storeMetadata key data w).1 = Outcome.resolved () ∧
      lookupKey (api.storeMetadata key data w).2.cache ("gh.meta." ++ key)
        = some (w.time + 300000, data)) ∧
    (∀ (api : API) (key : String) (e : Nat) (d : Metadata) (w : World),
      lookupKey w.cache ("gh.meta." ++ key) = some (e, d) → e > w.time →
      api.retrieveMetadata key w = (Outcome.resolved d, w)) ∧
    (∀ (api : API) (key : String) (e : Nat) (d md : Metadata) (w : World),
      lookupKey w.cache ("gh.meta." ++ key) = some (e, d) → ¬ e > w.time →
      w.faults = [] → lookupKey w.metaFiles key = some md →
      api.retrieveMetadata key w =
        (Outcome.resolved md,
         { w with log := w.log ++
             [RemoteOp.contentsRead (api.metadataReadPath key)] })) := by
  refine ⟨?_, ?_, ?_⟩
  · intro api key data w m hs hf hm
    rw [storeMetadata_ok api key data w m hs hf hm]
    exact ⟨rfl, lookupKey_setKey_self _ _ _⟩
  · intro api key e d w hcache he
    unfold API.retrieveMetadata
    rw [hcache]
    dsimp only
    rw [if_pos he]
  · intro api key e d md w hcache he hf hmd
    unfold API.retrieveMetadata
    rw [hcache]
    dsimp only
    rw [if_neg he]
    rw [remoteCall_ok _ _ hf]
    dsimp only
    rw [hmd]

/-- Witness for claim C9 at concrete worlds: a store at time 1000
caches with expiry 301000; an unexpired read (expiry 2000, time 1000)
returns the cached document with no remote call; an expired read
(expiry 500, time 1000) issues the remote contents read. -/
theorem metadata_cache_five_minute_expiry_witness :
    ((api0.storeMetadata "owner/repo/posts/x" md0 w0).1 = Outcome.resolved () ∧
     lookupKey (api0.storeMetadata "owner/repo/posts/x" md0 w0).2.cache
       ("gh.meta." ++ "owner/repo/posts/x") = some (301000, md0)) ∧
    api0.retrieveMetadata "owner/repo/posts/x"
        { w0 with cache := [("gh.meta.owner/repo/posts/x", (2000, md0))] } =
      (Outcome.resolved md0,
       { w0 with cache := [("gh.meta.owner/repo/posts/x", (2000, md0))] }) ∧
    api0.retrieveMetadata "owner/repo/posts/x"
        { w0 with cache := [("gh.meta.owner/repo/posts/x", (500, md0))] } =
      (Outcome.resolved md0,
       { w0 with
          cache := [("gh.meta.owner/repo/posts/x", (500, md0))],
          log := [RemoteOp.contentsRead
            (api0.metadataReadPath "owner/repo/posts/x")] }) := by
  refine ⟨⟨?_, ?_⟩, ?_, ?_⟩
  · exact (metadata_cache_five_minute_expiry.1 api0 _ md0 w0 30 rfl rfl rfl).1
  · exact (metadata_cache_five_minute_expiry.1 api0 _ md0 w0 30 rfl rfl rfl).2
  · exact metadata_cache_five_minute_expiry.2.1 api0 "owner/repo/posts/x"
      2000 md0 _ (by decide) (by decide)
  · exact (metadata_cache_five_minute_expiry.2.2 api0 "owner/repo/posts/x"
      500 md0 md0 _ (by decide) (by decide) rfl (by decide)).trans (by decide)

/- ------------------------------------------------------------------ -/
/- Helper equations for the publish path.                              -/
/- ------------------------------------------------------------------ -/

theorem retrieveMetadata_remote_ok (api : API) (key : String) (md : Metadata)
    (w : World) (hc : lookupKey w.cache ("gh.meta." ++ key) = none)
    (hf : w.faults = []) (hmd : lookupKey w.metaFiles key = some md) :
    api.retrieveMetadata key w =
      (Outcome.resolved md,
       { w with log := w.log ++
           [RemoteOp.contentsRead (api.metadataReadPath key)] }) := by
  unfold API.retrieveMetadata
  rw [hc]
  dsimp only
  rw [remoteCall_ok _ _ hf]
  dsimp only
  rw [hmd]

theorem mergePR_405 (api : API) (pr : PRRef) (objects : MetaDataObjects)
    (w : World) (msg : String)
    (hmo : w.mergeOutcome = some (.apiError msg 405)) :
    api.mergePR pr objects w =
      api.forceMergePR objects
        { w with log := w.log ++ [RemoteOp.prMerge pr.number] } := by
  unfold API.mergePR
  dsimp only
  rw [hmo]
  dsimp only [Err.isApiErrorWithStatus]
  rw [if_pos (by decide)]

theorem forceMergePR_ok (api : API) (objects : MetaDataObjects) (w : World)
    (tip : Sha) (hf : w.faults = [])
    (htip : lookupKey w.branches api.branch = some tip) :
    api.forceMergePR objects w =
      (Outcome.resolved (),
       { w with
          nextSha := w.nextSha + 2,
          branches := setKey w.branches api.branch (w.nextSha + 1),
          log := w.log ++
            [RemoteOp.branchGet api.branch,
             RemoteOp.treeCreate (some tip)
               ((objects.files ++ [objects.entry]).map (fun file =>
                 TreeEntryItem.mk (trimStartSlash file.path) "100644" "blob"
                   (some file.sha))) w.nextSha,
             RemoteOp.commitCreate
               (forceMergeCommitMessage (objects.files ++ [objects.entry]))
               w.nextSha [tip] none none (w.nextSha + 1),
             RemoteOp.refPatch "heads" api.branch (w.nextSha + 1) false] }) := by
  unfold API.forceMergePR API.getDefaultBranch API.updateTree API.createTree
    API.commit API.createCommit API.patchBranch API.patchRef
  simp only [Bind.bind, Pure.pure, M.bind, M.pure, freshSha]
  rw [remoteCall_ok _ _ hf]
  dsimp only
  rw [htip]
  dsimp only
  rw [remoteCall_ok _ _ (by simp [hf])]
  dsimp only
  rw [remoteCall_ok _ _ (by simp [hf])]
  dsimp only
  rw [if_neg (by simp)]
  rw [remoteCall_ok _ _ (by simp [hf])]
  dsimp only
  simp only [if_true]
  rw [htip]
  dsimp only
  simp [List.append_assoc, List.map_map, Function.comp]

theorem deleteBranch_ok (api : API) (name : String) (w : World) (s : Sha)
    (hf : w.faults = []) (hb : lookupKey w.branches name = some s) :
    api.deleteBranch name w =
      (Outcome.resolved (),
       { w with branches := eraseKey w.branches name,
                log := w.log ++ [RemoteOp.refDelete "heads" name] }) := by
  unfold API.deleteBranch API.deleteRef
  rw [remoteCall_ok _ _ hf]
  dsimp only
  rw [if_pos rfl]
  rw [hb]

/- ------------------------------------------------------------------ -/
/- Claim C3: publish with HTTP 405 merge rejection.                    -/
/- ------------------------------------------------------------------ -/

/-- Claim C3 (amended): when the pull-request merge fails with an
APIError of HTTP status 405, `publishUnpublishedEntry` resolves with
the metadata (the 405 is neither propagated nor silently swallowed)
after exactly one forced-merge sequence — one tree built on the
default-branch tip from the entry plus media files, one commit on it
and one update of the default branch ref, issued WITHOUT the force
flag — and it still deletes the entry branch and the metadata
document, exactly as after a clean merge; a merge error that is not an
APIError with status 405 is rethrown unchanged by `mergePR`. -/
theorem publish_405_forced_merge_fallback :
    (∀ (api : API) (collectionName slug : String) (w : World)
       (md : Metadata) (pr : PRRef) (msg : String) (tip branchSha m : Sha),
      w.semTaken = false → w.faults = [] →
      w.mergeOutcome = some (.apiError msg 405) →
      lookupKey w.cache
        ("gh.meta." ++ api.generateContentKey collectionName slug) = none →
      lookupKey w.metaFiles (api.generateContentKey collectionName slug)
        = some md →
      md.pr = some pr →
      lookupKey w.branches api.branch = some tip →
      lookupKey w.branches
        (api.generateBranchName (api.generateContentKey collectionName slug))
        = some branchSha →
      api.generateBranchName (api.generateContentKey collectionName slug)
        ≠ api.branch →
      w.metaRef = some m →
      api.publishUnpublishedEntry collectionName slug w =
        (Outcome.resolved md,
         { w with
            nextSha := w.nextSha + 4,
            branches := eraseKey
              (setKey w.branches api.branch (w.nextSha + 1))
              (api.generateBranchName
                (api.generateContentKey collectionName slug)),
            metaRef := some (w.nextSha + 3),
            metaFiles := eraseKey w.metaFiles
              (api.generateContentKey collectionName slug),
            log := w.log ++
              [RemoteOp.contentsRead
                 (api.metadataReadPath
                   (api.generateContentKey collectionName slug)),
               RemoteOp.prMerge pr.number,
               RemoteOp.branchGet api.branch,
               RemoteOp.treeCreate (some tip)
                 ((md.objects.files ++ [md.objects.entry]).map (fun file =>
                   TreeEntryItem.mk (trimStartSlash file.path) "100644"
                     "blob" (some file.sha))) w.nextSha,
               RemoteOp.commitCreate
                 (forceMergeCommitMessage
                   (md.objects.files ++ [md.objects.entry]))
                 w.nextSha [tip] none none (w.nextSha + 1),
               RemoteOp.refPatch "heads" api.branch (w.nextSha + 1) false,
               RemoteOp.refDelete "heads"
                 (api.generateBranchName
                   (api.generateContentKey collectionName slug)),
               RemoteOp.refRead "meta" "_netlify_cms",
               RemoteOp.treeCreate (some m)
                 [TreeEntryItem.mk
                   (trimStartSlash
                     (api.generateContentKey collectionName slug ++ ".json"))
                   "100644" "blob" none] (w.nextSha + 2),
               RemoteOp.commitCreate
                 ("Deleting “" ++ api.generateContentKey collectionName slug
                   ++ "” metadata")
                 (w.nextSha + 2) [m] none none (w.nextSha + 3),
               RemoteOp.refPatch "meta" "_netlify_cms" (w.nextSha + 3)
                 false] })) ∧
    (∀ (api : API) (pr : PRRef) (objects : MetaDataObjects) (w : World)
       (e : Err),
      w.mergeOutcome = some e → e.isApiErrorWithStatus 405 = false →
      api.mergePR pr objects w =
        (Outcome.rejected e,
         { w with log := w.log ++ [RemoteOp.prMerge pr.number] })) := by
  constructor
  · intro api collectionName slug w md pr msg tip branchSha m
      hs hf hmo hc hmd hpr htip hbr hneq hmref
    unfold API.publishUnpublishedEntry
    simp only [Bind.bind, Pure.pure, M.bind, M.pure]
    rw [retrieveMetadata_remote_ok api _ md w hc hf hmd]
    dsimp only
    rw [hpr]
    simp only [Option.getD_some]
    rw [mergePR_405 api pr md.objects _ msg (by simp [hmo])]
    rw [forceMergePR_ok api md.objects _ tip (by simp [hf]) (by simp [htip])]
    dsimp only
    rw [deleteBranch_ok api
      (api.generateBranchName (api.generateContentKey collectionName slug))
      _ branchSha (by simp [hf])
      (by
        simp only []
        rw [lookupKey_setKey_ne _ _ _ _ hneq]
        exact hbr)]
    dsimp only
    rw [deleteMetadata_ok api (api.generateContentKey collectionName slug)
      _ m (by simp [hs]) (by simp [hf]) (by simp [hmref])]
    dsimp only
    simp [List.append_assoc]
  · intro api pr objects w e hmo hne
    unfold API.mergePR
    dsimp only
    rw [hmo]
    simp [hne]

/-- World fixture for claim C3: the pull-request merge is rejected
with HTTP 405. -/
def w3 : World :=
  { w0 with mergeOutcome := some (.apiError "Method Not Allowed" 405) }

/-- Witness for claim C3 at a concrete world: publish succeeds, the
branch and metadata are gone, and the remote log shows the complete
run, with exactly one (non-forced) update of the default branch
ref. -/
theorem publish_405_forced_merge_fallback_witness :
    (api0.publishUnpublishedEntry "posts" "x" w3).1 =
      Outcome.resolved md0 ∧
    lookupKey (api0.publishUnpublishedEntry "posts" "x" w3).2.branches
      "cms/owner/repo/posts/x" = none ∧
    lookupKey (api0.publishUnpublishedEntry "posts" "x" w3).2.metaFiles
      "owner/repo/posts/x" = none ∧
    (api0.publishUnpublishedEntry "posts" "x" w3).2.log =
      [RemoteOp.contentsRead "/repos/owner/repo/contents/owner/repo/posts/x.json",
       RemoteOp.prMerge 7,
       RemoteOp.branchGet "master",
       RemoteOp.treeCreate (some 40)
         [TreeEntryItem.mk "static/media/a.png" "100644" "blob" (some 12),
          TreeEntryItem.mk "content/posts/x.md" "100644" "blob" (some 11)] 100,
       RemoteOp.commitCreate
         (forceMergeCommitMessage (md0.objects.files ++ [md0.objects.entry]))
         100 [40] none none 101,
       RemoteOp.refPatch "heads" "master" 101 false,
       RemoteOp.refDelete "heads" "cms/owner/repo/posts/x",
       RemoteOp.refRead "meta" "_netlify_cms",
       RemoteOp.treeCreate (some 30)
         [TreeEntryItem.mk "owner/repo/posts/x.json" "100644" "blob" none] 102,
       RemoteOp.commitCreate ("Deleting “owner/repo/posts/x” metadata")
         102 [30] none none 103,
       RemoteOp.refPatch "meta" "_netlify_cms" 103 false] := by
  have h := publish_405_forced_merge_fallback.1 api0 "posts" "x" w3 md0
    { number := 7, head := 21 } "Method Not Allowed" 40 21 30
    rfl rfl rfl (by decide) (by decide) rfl (by decide) (by decide)
    (by decide) rfl
  rw [h]
  exact ⟨rfl, by decide, by decide, by decide⟩

/-- True exactly for a forced ref update. -/
def isForcedRefPatch : RemoteOp → Bool
  | .refPatch _ _ _ force => force
  | _ => false

/-- Counterexample for claim C3 as stated: the fallback does NOT
"force-update the default branch ref" — in a complete 405-fallback
publish run, the (unique) update of the default branch ref carries
force = false, and no forced ref update occurs at all. -/
theorem forceMerge_default_branch_update_not_forced :
    RemoteOp.refPatch "heads" "master" 101 false ∈
      (api0.publishUnpublishedEntry "posts" "x" w3).2.log ∧
    (∀ op ∈ (api0.publishUnpublishedEntry "posts" "x" w3).2.log,
      isForcedRefPatch op = false) := by
  exact ⟨by decide, by decide⟩

/- ------------------------------------------------------------------ -/
/- Claim C7: reconciliation of an externally merged pull request.      -/
/- ------------------------------------------------------------------ -/

theorem generateContentKey_eq (api : API) (c s : String) :
    api.generateContentKey c s = api.repo ++ "/" ++ c ++ "/" ++ s := by
  unfold API.generateContentKey
  split <;> rfl

theorem slugFromContentKey_fork (api : API) (c s : String)
    (h : api.useOpenAuthoring = true) :
    api.slugFromContentKey (api.repo ++ "/" ++ c ++ "/" ++ s) c = s := by
  have h2 := contentKey_roundTrip_fork api c s h
  rwa [generateContentKey_eq] at h2

theorem getPullRequest_ok (api : API) (n : Nat) (info : PRInfo) (w : World)
    (hf : w.faults = []) (hp : lookupPR w.prs n = some info) :
    api.getPullRequest n w =
      (Outcome.resolved info,
       { w with log := w.log ++ [RemoteOp.prGet n] }) := by
  unfold API.getPullRequest
  rw [remoteCall_ok _ _ hf]
  dsimp only
  rw [hp]

theorem closePR_ok (api : API) (pr : PRRef) (w : World) (hf : w.faults = []) :
    api.closePR pr w =
      (Outcome.resolved (),
       { w with prs := setPRState w.prs pr.number "closed" false,
                log := w.log ++ [RemoteOp.prPatch pr.number "closed"] }) := by
  unfold API.closePR
  rw [remoteCall_ok _ _ hf]

theorem remoteCall_branches (op : RemoteOp) (w : World) :
    ((remoteCall op w).2).branches = w.branches := by
  unfold remoteCall
  match w.faults with
  | [] => rfl
  | b :: rest => dsimp only; split <;> rfl

theorem string_append_left_cancel (a b c : String) (h : a ++ b = a ++ c) :
    b = c := by
  have h2 := congrArg String.data h
  simp at h2
  exact String.eq_of_data_eq _ _ h2

theorem lookupKey_none_not_mem {α : Type} (l : List (String × α)) (k : String)
    (h : lookupKey l k = none) : ∀ p ∈ l, p.1 ≠ k := by
  induction l with
  | nil => intro p hp; simp at hp
  | cons q rest ih =>
      intro p hp
      unfold lookupKey at h
      by_cases hq : q.1 = k
      · rw [if_pos hq] at h; exact absurd h (by simp)
      · rw [if_neg hq] at h
        rcases List.mem_cons.mp hp with hpe | hpm
        · rw [hpe]; exact hq
        · exact ih h p hpm

theorem openAuthoringFilterBranches_subset (api : API) (bs : List Branch) :
    ∀ (w : World) (out : List Branch) (w2 : World),
    api.openAuthoringFilterBranches bs w = (Outcome.resolved out, w2) →
    ∀ b ∈ out, b ∈ bs := by
  induction bs with
  | nil =>
      intro w out w2 h b hb
      have hout : [] = out := by
        have h2 := congrArg Prod.fst h
        simpa [API.openAuthoringFilterBranches, M.pure] using h2
      rw [← hout] at hb
      simp at hb
  | cons hd tl ih =>
      intro w out w2 h b hb
      unfold API.openAuthoringFilterBranches at h
      rcases hg : api.getUpdatedOpenAuthoringMetadata
          (api.contentKeyFromRef hd.ref) none w with ⟨o, w1⟩
      rw [hg] at h
      match o with
      | .resolved (some x) =>
          dsimp only at h
          rcases hrec : api.openAuthoringFilterBranches tl w1 with ⟨o2, w3⟩
          rw [hrec] at h
          match o2 with
          | .resolved bs2 =>
              have hout : hd :: bs2 = out := by
                have h2 := congrArg Prod.fst h
                simpa using h2
              rw [← hout] at hb
              rcases List.mem_cons.mp hb with hbe | hbm
              · rw [hbe]; exact List.mem_cons_self hd tl
              · exact List.mem_cons_of_mem hd (ih w1 bs2 w3 hrec b hbm)
          | .rejected e => exact absurd (congrArg Prod.fst h) (by simp)
          | .pending => exact absurd (congrArg Prod.fst h) (by simp)
      | .resolved none =>
          dsimp only at h
          exact List.mem_cons_of_mem hd (ih w1 out w2 h b hb)
      | .rejected e =>
          dsimp only at h
          exact List.mem_cons_of_mem hd (ih w1 out w2 h b hb)
      | .pending => exact absurd (congrArg Prod.fst h) (by simp)

theorem listUnpublishedBranches_mem (api : API) (w : World) (bs : List Branch)
    (w2 : World) (hoa : api.useOpenAuthoring = true)
    (h : api.listUnpublishedBranches w = (Outcome.resolved bs, w2)) :
    ∀ b ∈ bs, ∃ p, p ∈ w.branches ∧ b.ref = "refs/heads/" ++ p.1 := by
  unfold API.listUnpublishedBranches API.listCmsBranches at h
  simp only [Bind.bind, M.bind] at h
  rcases hrc : remoteCall
      (.refsList (api.repoURL ++ "/git/refs/heads/cms")) w with ⟨o, w1⟩
  rw [hrc] at h
  cases o with
  | pending => exact absurd (congrArg Prod.fst h) (by simp)
  | rejected e => exact absurd (congrArg Prod.fst h) (by simp)
  | resolved u =>
      dsimp only at h
      rw [hoa] at h
      simp only [if_true] at h
      intro b hb
      have hsub := openAuthoringFilterBranches_subset api _ w1 bs w2 h b hb
      have hbr : w1.branches = w.branches := by
        have h3 := remoteCall_branches
          (.refsList (api.repoURL ++ "/git/refs/heads/cms")) w
        rw [hrc] at h3
        exact h3
      rw [hbr] at hsub
      rcases List.mem_map.mp hsub with ⟨p, hpmem, hpeq⟩
      exact ⟨p, (List.mem_filter.mp hpmem).1, by rw [← hpeq]⟩

/-- After an entry branch is gone from the remote, an open-authoring
`listUnpublishedBranches` can never list it again. -/
theorem listUnpublishedBranches_omits (api : API) (w : World) (name : String)
    (hoa : api.useOpenAuthoring = true)
    (hb : lookupKey w.branches name = none) :
    ∀ bs w2, api.listUnpublishedBranches w = (Outcome.resolved bs, w2) →
      Branch.mk ("refs/heads/" ++ name) ∉ bs := by
  intro bs w2 h hmem
  rcases listUnpublishedBranches_mem api w bs w2 hoa h _ hmem with ⟨p, hp, heq⟩
  have hpn : p.1 = name :=
    (string_append_left_cancel "refs/heads/" name p.1 heq).symm
  exact lookupKey_none_not_mem w.branches name hb p hp hpn

/-- Claim C7: in the open-authoring variant, when the recorded pull
request of an entry is found closed and merged on the remote, the
reconciler deletes the unpublished entry — closes the PR, deletes its
branch and its metadata document — and reports the entry removed
(resolves with no metadata); consequently a subsequent
`listUnpublishedBranches` never includes that entry branch. -/
theorem reconciler_merged_pr_deletes_entry_and_listing_omits
    (api : API) (contentKey slug : String) (w : World)
    (md : Metadata) (pr : PRRef) (prInfo : PRInfo) (branchSha m : Sha)
    (hoa : api.useOpenAuthoring = true)
    (hs : w.semTaken = false) (hf : w.faults = [])
    (hkey : contentKey = api.repo ++ "/" ++ md.collection ++ "/" ++ slug)
    (hc : lookupKey w.cache ("gh.meta." ++ contentKey) = none)
    (hmd : lookupKey w.metaFiles contentKey = some md)
    (hpr : md.pr = some pr)
    (hpi : lookupPR w.prs pr.number = some prInfo)
    (hstate : prInfo.state = "closed") (hmerged : prInfo.mergedAt = true)
    (hbr : lookupKey w.branches (api.generateBranchName contentKey)
      = some branchSha)
    (hmref : w.metaRef = some m) :
    api.getUpdatedOpenAuthoringMetadata contentKey none w =
      (Outcome.resolved none,
       { w with
          nextSha := w.nextSha + 2,
          branches := eraseKey w.branches (api.generateBranchName contentKey),
          metaRef := some (w.nextSha + 1),
          metaFiles := eraseKey w.metaFiles contentKey,
          prs := setPRState w.prs pr.number "closed" false,
          log := w.log ++
            [RemoteOp.contentsRead (api.metadataReadPath contentKey),
             RemoteOp.prGet pr.number,
             RemoteOp.contentsRead (api.metadataReadPath contentKey),
             RemoteOp.prPatch pr.number "closed",
             RemoteOp.refDelete "heads" (api.generateBranchName contentKey),
             RemoteOp.refRead "meta" "_netlify_cms",
             RemoteOp.treeCreate (some m)
               [TreeEntryItem.mk (trimStartSlash (contentKey ++ ".json"))
                 "100644" "blob" none] w.nextSha,
             RemoteOp.commitCreate ("Deleting “" ++ contentKey ++ "” metadata")
               w.nextSha [m] none none (w.nextSha + 1),
             RemoteOp.refPatch "meta" "_netlify_cms" (w.nextSha + 1) false] }) ∧
    lookupKey
      (api.getUpdatedOpenAuthoringMetadata contentKey none w).2.metaFiles
      contentKey = none ∧
    lookupKey
      (api.getUpdatedOpenAuthoringMetadata contentKey none w).2.branches
      (api.generateBranchName contentKey) = none ∧
    (∀ bs w2, api.listUnpublishedBranches
        (api.getUpdatedOpenAuthoringMetadata contentKey none w).2 =
        (Outcome.resolved bs, w2) →
      Branch.mk ("refs/heads/" ++ api.generateBranchName contentKey) ∉ bs) := by
  subst hkey
  have heq : api.getUpdatedOpenAuthoringMetadata
      (api.repo ++ "/" ++ md.collection ++ "/" ++ slug) none w =
      (Outcome.resolved none,
       { w with
          nextSha := w.nextSha + 2,
          branches := eraseKey w.branches (api.generateBranchName
            (api.repo ++ "/" ++ md.collection ++ "/" ++ slug)),
          metaRef := some (w.nextSha + 1),
          metaFiles := eraseKey w.metaFiles
            (api.repo ++ "/" ++ md.collection ++ "/" ++ slug),
          prs := setPRState w.prs pr.number "closed" false,
          log := w.log ++
            [RemoteOp.contentsRead (api.metadataReadPath
               (api.repo ++ "/" ++ md.collection ++ "/" ++ slug)),
             RemoteOp.prGet pr.number,
             RemoteOp.contentsRead (api.metadataReadPath
               (api.repo ++ "/" ++ md.collection ++ "/" ++ slug)),
             RemoteOp.prPatch pr.number "closed",
             RemoteOp.refDelete "heads" (api.generateBranchName
               (api.repo ++ "/" ++ md.collection ++ "/" ++ slug)),
             RemoteOp.refRead "meta" "_netlify_cms",
             RemoteOp.treeCreate (some m)
               [TreeEntryItem.mk (trimStartSlash
                 ((api.repo ++ "/" ++ md.collection ++ "/" ++ slug) ++ ".json"))
                 "100644" "blob" none] w.nextSha,
             RemoteOp.commitCreate ("Deleting “" ++
               (api.repo ++ "/" ++ md.collection ++ "/" ++ slug)
               ++ "” metadata") w.nextSha [m] none none (w.nextSha + 1),
             RemoteOp.refPatch "meta" "_netlify_cms" (w.nextSha + 1)
               false] }) := by
    unfold API.getUpdatedOpenAuthoringMetadata API.deleteUnpublishedEntry
      M.spawn
    simp only [Bind.bind, Pure.pure, M.bind, M.pure]
    rw [retrieveMetadata_remote_ok api _ md w hc hf hmd]
    dsimp only
    rw [hpr]
    dsimp only
    simp only [Bind.bind, Pure.pure, M.bind, M.pure]
    rw [getPullRequest_ok api pr.number prInfo _ (by simp [hf])
      (by simp [hpi])]
    dsimp only
    rw [if_pos (by simp [hstate, hmerged])]
    rw [slugFromContentKey_fork api md.collection slug hoa]
    rw [generateContentKey_eq api md.collection slug]
    simp only [Bind.bind, Pure.pure, M.bind, M.pure]
    rw [retrieveMetadata_remote_ok api _ md _ (by simp [hc]) (by simp [hf])
      (by simp [hmd])]
    dsimp only
    rw [hpr]
    dsimp only
    simp only [Bind.bind, Pure.pure, M.bind, M.pure]
    rw [closePR_ok api pr _ (by simp [hf])]
    dsimp only
    rw [deleteBranch_ok api _ _ branchSha (by simp [hf]) (by simp [hbr])]
    dsimp only
    rw [deleteMetadata_ok api _ _ m (by simp [hs]) (by simp [hf])
      (by simp [hmref])]
    dsimp only
    simp [List.append_assoc]
  refine ⟨heq, ?_, ?_, ?_⟩
  · rw [heq]
    exact lookupKey_eraseKey_self _ _
  · rw [heq]
    exact lookupKey_eraseKey_self _ _
  · intro bs w2 hl
    rw [heq] at hl
    exact listUnpublishedBranches_omits api _ _ hoa
      (lookupKey_eraseKey_self _ _) bs w2 hl

/-- Metadata fixture for the C7 witness (open-authoring entry). -/
def mdOA : Metadata :=
  { md0 with collection := "posts",
             branch := "cms/forker/repo/posts/x",
             status := "pending_review" }

/-- Remote pull-request fixture for the C7 witness: closed and
merged. -/
def prInfoOA : PRInfo :=
  { number := 7, state := "closed", mergedAt := true, headSha := 21,
    headRef := "cms/forker/repo/posts/x" }

/-- World fixture for the C7 witness. -/
def wOA : World :=
  { time := 1000, nextSha := 100, nextPrNumber := 50,
    userLogin := "jane", userName := "Jane",
    branches := [("master", 40), ("cms/forker/repo/posts/x", 21)],
    metaRef := some 30,
    metaFiles := [("forker/repo/posts/x", mdOA)],
    cache := [], prs := [prInfoOA], diffs := [],
    mergeOutcome := none, faults := [], semTaken := false, log := [] }

/-- Witness for claim C7 at a concrete world: the reconciler reports
the entry removed, the metadata document and branch are gone, and the
next listing resolves without the entry. -/
theorem reconciler_merged_pr_deletes_entry_witness :
    (apiOA.getUpdatedOpenAuthoringMetadata "forker/repo/posts/x" none wOA).1
      = Outcome.resolved none ∧
    lookupKey (apiOA.getUpdatedOpenAuthoringMetadata "forker/repo/posts/x"
      none wOA).2.metaFiles "forker/repo/posts/x" = none ∧
    lookupKey (apiOA.getUpdatedOpenAuthoringMetadata "forker/repo/posts/x"
      none wOA).2.branches (apiOA.generateBranchName "forker/repo/posts/x")
      = none ∧
    (apiOA.listUnpublishedBranches
      (apiOA.getUpdatedOpenAuthoringMetadata "forker/repo/posts/x"
        none wOA).2).1 = Outcome.resolved [] := by
  have h := reconciler_merged_pr_deletes_entry_and_listing_omits apiOA
    "forker/repo/posts/x" "x" wOA mdOA { number := 7, head := 21 }
    prInfoOA 21 30 rfl rfl rfl rfl (by decide) (by decide) rfl (by decide)
    rfl rfl (by decide) rfl
  exact ⟨congrArg Prod.fst h.1, h.2.1, h.2.2.1, by decide⟩
